import Mathlib

/-!
Shallow embedding of the AI-mdp-solver repository (src/solver.py,
src/environment.py, src/config.py, src/visualization.py) over exact
rational arithmetic, together with proofs settling the frozen claims
about the specification.

Python floats are modelled as rationals (ℚ); Python dicts keyed by
states are modelled as functions or insertion-ordered association
lists; Python operations that can raise are modelled with `Option` /
`Except`.
-/

/- ----------------------------------------------------------------
   Part 1: the solver (src/solver.py), generic over the MDP model
   interface it consumes (get_states, get_actions, get_reward,
   get_transitions, terminal_states).  The solver code unpacks each
   transition entry as `for prob, next_state in ...`, i.e. it reads
   (probability, successor) pairs, so the interface type is
   `transitions : S → A → List (ℚ × S)`.
   ---------------------------------------------------------------- -/

/-- The MDP model interface consumed by `MDPSolver` (solver.py):
`get_states`, `get_actions`, `get_reward`, `get_transitions`,
`terminal_states` membership. -/
structure MDPEnv (S A : Type) where
  states : List S
  actions : S → List A
  reward : S → ℚ
  transitions : S → A → List (ℚ × S)
  terminal : S → Bool

/-- The inner loop of `MDPSolver._get_q_values` (solver.py lines 213-215):
`expected_utility = 0.0` then `expected_utility += prob * utilities[next_state]`
over the transition list. -/
def qValue (env : MDPEnv S A) (U : S → ℚ) (s : S) (a : A) : ℚ :=
  (env.transitions s a).foldl (fun acc pr => acc + pr.1 * U pr.2) 0

/-- `MDPSolver._get_q_values` (solver.py lines 201-217): the dict
`{action: q_value}` in insertion order, as an association list.
(Python dict keys are unique; `get_actions` never returns duplicates in
this repository, and a duplicate action would map to the same q-value,
so the association list is a faithful model for max/argmax purposes.) -/
def qValuesDict (env : MDPEnv S A) (U : S → ℚ) (s : S) : List (A × ℚ) :=
  (env.actions s).map (fun a => (a, qValue env U s a))

/-- Python `max(vals) if vals else 0.0` over a list of rationals
(solver.py line 65). -/
def listMax : List ℚ → ℚ
  | [] => 0
  | x :: xs => xs.foldl max x

/-- The per-state value computed by the Value Iteration sweep body
(solver.py lines 56-67): terminal states get `get_reward(state)`;
otherwise `get_reward(state) + gamma * max_q` where `max_q` is the
maximum of the q-values under the (old) table `U`, or `0.0` when the
state has no actions. -/
def viUpdate (env : MDPEnv S A) (gamma : ℚ) (U : S → ℚ) (s : S) : ℚ :=
  if env.terminal s then env.reward s
  else env.reward s + gamma * listMax ((qValuesDict env U s).map Prod.snd)

/-- One pass of the `for state in self.env.get_states()` loop body of
`solve_value_iteration` (solver.py lines 55-70).  The accumulator is
the pair (new_utilities, delta).  Note the q-values are computed from
the captured old table `U` (`self.utilities`), never from `acc.1`, and
that the `delta` update is skipped (`continue`) for terminal states. -/
def viStep [DecidableEq S] (env : MDPEnv S A) (gamma : ℚ) (U : S → ℚ)
    (acc : (S → ℚ) × ℚ) (s : S) : (S → ℚ) × ℚ :=
  if env.terminal s then (Function.update acc.1 s (env.reward s), acc.2)
  else
    let newv := env.reward s + gamma * listMax ((qValuesDict env U s).map Prod.snd)
    (Function.update acc.1 s newv, max acc.2 |newv - U s|)

/-- One full sweep of `solve_value_iteration` (solver.py lines 51-70):
`delta = 0.0`, `new_utilities = copy.deepcopy(self.utilities)`, then the
per-state loop.  Returns (new_utilities, delta). -/
def viSweep [DecidableEq S] (env : MDPEnv S A) (gamma : ℚ) (U : S → ℚ) :
    (S → ℚ) × ℚ :=
  env.states.foldl (viStep env gamma U) (U, 0)

/-- The `while True` loop of `solve_value_iteration` (solver.py lines
49-80), with explicit fuel: `none` models the loop not having stopped
within `fuel` sweeps.  Each round performs a sweep, replaces the table,
and stops when `delta < epsilon`. -/
def viLoop [DecidableEq S] (env : MDPEnv S A) (gamma eps : ℚ) :
    Nat → (S → ℚ) → Option (S → ℚ)
  | 0, _ => none
  | fuel + 1, U =>
    let swept := viSweep env gamma U
    if swept.2 < eps then some swept.1 else viLoop env gamma eps fuel swept.1

/-- Python `max(q_values, key=q_values.get)` (solver.py lines 135, 244):
the first key attaining the maximal value, obtained by a left fold that
replaces the current best only on a strictly greater value. -/
def argmaxAction (env : MDPEnv S A) (U : S → ℚ) (s : S) : Option A :=
  match env.actions s with
  | [] => none
  | a :: rest =>
    some (rest.foldl (fun best a' =>
      if qValue env U s best < qValue env U s a' then a' else best) a)

/-- `MDPSolver._extract_policy` (solver.py lines 219-247): `None` for
terminal states and for states with an empty q-value dict, otherwise the
argmax action. -/
def extractPolicy (env : MDPEnv S A) (U : S → ℚ) (s : S) : Option A :=
  if env.terminal s then none else argmaxAction env U s

/-- `MDPSolver.solve_value_iteration` (solver.py lines 35-84) with
explicit fuel for the unbounded `while True` loop: on convergence it
returns the converged table together with the policy extracted from it. -/
def solveValueIteration [DecidableEq S] (env : MDPEnv S A) (gamma eps : ℚ)
    (fuel : Nat) : Option ((S → ℚ) × (S → Option A)) :=
  (viLoop env gamma eps fuel (fun _ => 0)).map (fun U => (U, extractPolicy env U))

/-- One pass of the state loop body of `MDPSolver._policy_evaluation`
(solver.py lines 168-191): terminal states get the reward (skipping the
delta update), states whose policy entry is `None` get the reward
(also skipping the delta update), and otherwise the fixed-policy Bellman
update is applied using the old table `U`. -/
def peStep [DecidableEq S] (env : MDPEnv S A) (gamma : ℚ) (pol : S → Option A)
    (U : S → ℚ) (acc : (S → ℚ) × ℚ) (s : S) : (S → ℚ) × ℚ :=
  if env.terminal s then (Function.update acc.1 s (env.reward s), acc.2)
  else
    match pol s with
    | none => (Function.update acc.1 s (env.reward s), acc.2)
    | some a =>
      let newv := env.reward s +
        gamma * (env.transitions s a).foldl (fun acc2 pr => acc2 + pr.1 * U pr.2) 0
      (Function.update acc.1 s newv, max acc.2 |newv - U s|)

/-- One full sweep of `_policy_evaluation` (solver.py lines 164-193). -/
def peSweep [DecidableEq S] (env : MDPEnv S A) (gamma : ℚ) (pol : S → Option A)
    (U : S → ℚ) : (S → ℚ) × ℚ :=
  env.states.foldl (peStep env gamma pol U) (U, 0)

/-- The solver object constructed by `MDPSolver.__init__` (solver.py
lines 27-33): the environment, gamma, epsilon and the zero-initialized
utility table are stored. -/
structure MDPSolver (S A : Type) where
  env : MDPEnv S A
  gamma : ℚ
  epsilon : ℚ
  utilities : S → ℚ

/-- `MDPSolver.__init__` (solver.py lines 27-33).  The body performs no
validation and contains no path that raises, so the result is always
`Except.ok`; the error channel records that a Python constructor could
in principle fail loudly. -/
def mdpSolverInit (env : MDPEnv S A) (gamma epsilon : ℚ) :
    Except String (MDPSolver S A) :=
  Except.ok { env := env, gamma := gamma, epsilon := epsilon, utilities := fun _ => 0 }

/- ----------------------------------------------------------------
   Part 2: the Gridworld model (src/environment.py, src/config.py).
   States are Python (row, col) int tuples, modelled as ℤ × ℤ.
   ---------------------------------------------------------------- -/

/-- config.py `GRID_HEIGHT = 3`. -/
def GRID_HEIGHT : ℤ := 3

/-- config.py `GRID_WIDTH = 4`. -/
def GRID_WIDTH : ℤ := 4

/-- config.py `WALL_STATES = {(1, 1)}`. -/
def WALL_STATES : List (ℤ × ℤ) := [(1, 1)]

/-- config.py `GOAL_STATE = (0, 3)`. -/
def GOAL_STATE : ℤ × ℤ := (0, 3)

/-- config.py `TRAP_STATE = (1, 3)`. -/
def TRAP_STATE : ℤ × ℤ := (1, 3)

/-- config.py `REWARD_GOAL = 1.0`. -/
def REWARD_GOAL : ℚ := 1

/-- config.py `REWARD_TRAP = -1.0`. -/
def REWARD_TRAP : ℚ := -1

/-- config.py `REWARD_DEFAULT = -0.04`. -/
def REWARD_DEFAULT : ℚ := -(4 / 100)

/-- config.py `ACTIONS`: action name to (dr, dc), in dict insertion order. -/
def ACTIONS : List (String × (ℤ × ℤ)) :=
  [("North", (-1, 0)), ("South", (1, 0)), ("East", (0, 1)), ("West", (0, -1))]

/-- config.py `PROB_INTEND = 0.8`. -/
def PROB_INTEND : ℚ := 8 / 10

/-- config.py `PROB_SLIP_LEFT = 0.1`. -/
def PROB_SLIP_LEFT : ℚ := 1 / 10

/-- config.py `PROB_SLIP_RIGHT = 0.1`. -/
def PROB_SLIP_RIGHT : ℚ := 1 / 10

/-- environment.py line 32: `self.terminal_states = {GOAL_STATE, TRAP_STATE}`. -/
def terminalStates : List (ℤ × ℤ) := [GOAL_STATE, TRAP_STATE]

/-- environment.py lines 35-39: the set of all in-bounds, non-wall
(r, c) states, built by looping r over range(height) and c over
range(width). -/
def gridStates : List (ℤ × ℤ) :=
  (List.range GRID_HEIGHT.toNat).flatMap (fun r =>
    (List.range GRID_WIDTH.toNat).filterMap (fun c =>
      if ((r : ℤ), (c : ℤ)) ∈ WALL_STATES then none else some ((r : ℤ), (c : ℤ))))

/-- Membership of a state in `self.terminal_states`, as a Bool. -/
def gridTerminal (s : ℤ × ℤ) : Bool := decide (s ∈ terminalStates)

/-- `Gridworld.get_actions` (environment.py lines 54-61): empty for
terminal states, else `list(ACTIONS.keys())`. -/
def gridGetActions (s : ℤ × ℤ) : List String :=
  if s ∈ terminalStates then [] else ACTIONS.map Prod.fst

/-- `Gridworld.get_reward` (environment.py lines 63-69). -/
def gridGetReward (s : ℤ × ℤ) : ℚ :=
  if s = GOAL_STATE then REWARD_GOAL
  else if s = TRAP_STATE then REWARD_TRAP
  else REWARD_DEFAULT

/-- environment.py lines 42-47, `self._action_slips` dict lookup: the
(left, right) slip directions of an action; `none` models the KeyError
raised when the action is not a key. -/
def actionSlips (a : String) : Option (String × String) :=
  if a = "North" then some ("West", "East")
  else if a = "South" then some ("East", "West")
  else if a = "East" then some ("North", "South")
  else if a = "West" then some ("South", "North")
  else none

/-- `Gridworld._calculate_next_state` (environment.py lines 107-128);
`none` models the KeyError of `ACTIONS[action_name]` for an unknown
action name. -/
def calculateNextState (s : ℤ × ℤ) (actionName : String) : Option (ℤ × ℤ) :=
  if s ∈ terminalStates then some s
  else
    (List.lookup actionName ACTIONS).map (fun d =>
      let next : ℤ × ℤ := (s.1 + d.1, s.2 + d.2)
      if (¬(0 ≤ next.1 ∧ next.1 < GRID_HEIGHT ∧ 0 ≤ next.2 ∧ next.2 < GRID_WIDTH)) ∨
          next ∈ WALL_STATES then s
      else next)

/-- environment.py lines 101-103: Python dict accumulation
`consolidated[s_prime] = consolidated.get(s_prime, 0.0) + prob`; an
existing key keeps its position, a new key is appended. -/
def addConsolidated : List ((ℤ × ℤ) × ℚ) → (ℤ × ℤ) → ℚ → List ((ℤ × ℤ) × ℚ)
  | [], key, p => [(key, p)]
  | e :: rest, key, p =>
    if e.1 = key then (e.1, e.2 + p) :: rest else e :: addConsolidated rest key p

/-- environment.py lines 101-105: the consolidation dict built from the
raw (prob, next_state) outcome list, returned as `consolidated.items()`,
i.e. as (next_state, total_probability) pairs in insertion order. -/
def consolidate (trans : List (ℚ × (ℤ × ℤ))) : List ((ℤ × ℤ) × ℚ) :=
  trans.foldl (fun acc pr => addConsolidated acc pr.2 pr.1) []

/-- `Gridworld.get_transitions` (environment.py lines 71-105).  Note the
returned list consists of `consolidated.items()` pairs, whose components
are (next_state, probability) — in that order.  `none` models a raised
KeyError. -/
def gridGetTransitions (s : ℤ × ℤ) (action : String) :
    Option (List ((ℤ × ℤ) × ℚ)) :=
  if s ∈ terminalStates then some []
  else
    (actionSlips action).bind (fun slips =>
      (calculateNextState s action).bind (fun ns1 =>
        (calculateNextState s slips.1).bind (fun ns2 =>
          (calculateNextState s slips.2).map (fun ns3 =>
            consolidate [(PROB_INTEND, ns1), (PROB_SLIP_LEFT, ns2),
                         (PROB_SLIP_RIGHT, ns3)]))))

/- ----------------------------------------------------------------
   Part 3: the grid renderers (src/visualization.py).  Python values
   of the heterogeneous comparisons are modelled by `PyVal`;
   `pyEq` is Python `==` on them: values of different types compare
   unequal, tuples compare componentwise, sets compare as sets.
   ---------------------------------------------------------------- -/

/-- The Python values compared by `state == gridworld.terminal_states`
(visualization.py lines 27 and 66): int tuples and sets of int tuples. -/
inductive PyVal where
  | tupV : ℤ → ℤ → PyVal
  | setV : List (ℤ × ℤ) → PyVal
deriving DecidableEq

/-- Python `==` on `PyVal`: a tuple never equals a set; tuples compare
componentwise; sets compare extensionally. -/
def pyEq : PyVal → PyVal → Bool
  | .tupV a b, .tupV c d => decide (a = c ∧ b = d)
  | .setV l1, .setV l2 => l1.all (fun x => decide (x ∈ l2)) && l2.all (fun x => decide (x ∈ l1))
  | _, _ => false

/-- visualization.py lines 49-55: the `action_symbols` dict. -/
def ACTION_SYMBOLS : List (Option String × String) :=
  [(some "North", "   ^    "), (some "South", "   v    "),
   (some "East", "   >    "), (some "West", "   <    "),
   (none, "   .    ")]

/-- What `print_policy_grid` appends to the row for one cell. -/
inductive PolicyCell where
  | wall
  | goalLabel
  | trapLabel
  | arrow : String → PolicyCell
  | dash
deriving DecidableEq

/-- The per-cell branch structure of `print_policy_grid`
(visualization.py lines 60-76): wall check, then the
`state == gridworld.terminal_states` comparison guarding the
GOAL/TRAP labels, then the `state in policy` branch, else a dash. -/
def printPolicyCell (policy : List ((ℤ × ℤ) × Option String)) (r c : ℤ) : PolicyCell :=
  let state : ℤ × ℤ := (r, c)
  if state ∈ WALL_STATES then .wall
  else if pyEq (.tupV r c) (.setV terminalStates) then
    (if state = GOAL_STATE then .goalLabel else .trapLabel)
  else
    match List.lookup state policy with
    | some a => .arrow ((List.lookup a ACTION_SYMBOLS).getD "   ?    ")
    | none => .dash

/-- What `print_utilities_grid` appends to the row for one cell. -/
inductive UtilCell where
  | wall
  | terminalFmt : ℚ → UtilCell
  | normal : ℚ → UtilCell
  | dash
deriving DecidableEq

/-- The per-cell branch structure of `print_utilities_grid`
(visualization.py lines 21-35): wall check, then the
`state == gridworld.terminal_states` comparison guarding the
terminal-specific `utilities.get(state, 0.0)` branch, then the
`state in utilities` branch, else a dash. -/
def printUtilCell (utilities : List ((ℤ × ℤ) × ℚ)) (r c : ℤ) : UtilCell :=
  let state : ℤ × ℤ := (r, c)
  if state ∈ WALL_STATES then .wall
  else if pyEq (.tupV r c) (.setV terminalStates) then
    .terminalFmt ((List.lookup state utilities).getD 0)
  else
    match List.lookup state utilities with
    | some u => .normal u
    | none => .dash

/- ----------------------------------------------------------------
   Part 4: small concrete models, used as inputs when instantiating
   the solver theorems.
   ---------------------------------------------------------------- -/

/-- A two-state chain: state 0 moves to the terminal state 1 with
probability 1 under its single action; state 1 is terminal with
reward 5. -/
def tinyEnv : MDPEnv Nat Nat where
  states := [0, 1]
  actions := fun s => if s = 0 then [0] else []
  reward := fun s => if s = 1 then 5 else 0
  transitions := fun s _ => if s = 0 then [(1, 1)] else []
  terminal := fun s => s == 1

/-- A one-state model whose only state is non-terminal but has no
legal actions. -/
def stuckEnv : MDPEnv Nat Nat where
  states := [0]
  actions := fun _ => []
  reward := fun _ => 7
  transitions := fun _ _ => []
  terminal := fun _ => false

/- ----------------------------------------------------------------
   Part 5: generic lemmas about left folds of max and of sums.
   ---------------------------------------------------------------- -/

/-- The seed of a max-fold is a lower bound of the fold. -/
lemma le_foldl_max : ∀ (l : List ℚ) (c : ℚ), c ≤ l.foldl max c := by
  intro l
  induction l with
  | nil => intro c; exact le_refl c
  | cons x xs ih =>
    intro c
    exact le_trans (le_max_left c x) (ih (max c x))

/-- Every member of the list is a lower bound of the max-fold. -/
lemma mem_le_foldl_max {x : ℚ} : ∀ {l : List ℚ}, x ∈ l → ∀ c : ℚ, x ≤ l.foldl max c := by
  intro l
  induction l with
  | nil => intro h; cases h
  | cons y ys ih =>
    intro h c
    rcases List.mem_cons.mp h with h1 | h2
    · subst h1
      exact le_trans (le_max_right c x) (le_foldl_max ys (max c x))
    · exact ih h2 (max c y)

/-- A max-fold is bounded by any bound of the seed and of all members. -/
lemma foldl_max_le : ∀ {l : List ℚ} {c D : ℚ}, c ≤ D → (∀ x ∈ l, x ≤ D) →
    l.foldl max c ≤ D := by
  intro l
  induction l with
  | nil => intro c D hc _; exact hc
  | cons x xs ih =>
    intro c D hc h
    exact ih (max_le hc (h x (List.mem_cons_self x xs)))
      (fun y hy => h y (List.mem_cons_of_mem x hy))

/-- The running-sum fold used by `_get_q_values` equals the seed plus
the mapped sum. -/
lemma foldl_add_eq_sum (f : α → ℚ) : ∀ (l : List α) (c : ℚ),
    l.foldl (fun acc x => acc + f x) c = c + (l.map f).sum := by
  intro l
  induction l with
  | nil => intro c; simp
  | cons x xs ih =>
    intro c
    simp [ih (c + f x), add_assoc]

/-- `qValue` as a mapped sum. -/
lemma qValue_eq_sum (env : MDPEnv S A) (U : S → ℚ) (s : S) (a : A) :
    qValue env U s a = ((env.transitions s a).map (fun pr => pr.1 * U pr.2)).sum := by
  unfold qValue
  rw [foldl_add_eq_sum, zero_add]

/-- The values of the q-value dict are the q-values of the legal
actions, in order. -/
lemma qValuesDict_snd (env : MDPEnv S A) (U : S → ℚ) (s : S) :
    (qValuesDict env U s).map Prod.snd = (env.actions s).map (qValue env U s) := by
  unfold qValuesDict
  rw [List.map_map]
  rfl

/- ----------------------------------------------------------------
   Part 6: characterization of a sweep.  The per-state loop writes a
   value that depends only on the state and the captured old table,
   so the fold is a pointwise (synchronous) update.
   ---------------------------------------------------------------- -/

/-- Generic: folding a step that updates key `s` with `w s` leaves
untouched any state not in the list. -/
lemma foldl_step_fst_not_mem [DecidableEq S] {g : ((S → ℚ) × ℚ) → S → ((S → ℚ) × ℚ)}
    {w : S → ℚ} (hg : ∀ acc s, (g acc s).1 = Function.update acc.1 s (w s)) :
    ∀ (l : List S) (acc : (S → ℚ) × ℚ) (s : S), s ∉ l →
      (l.foldl g acc).1 s = acc.1 s := by
  intro l
  induction l with
  | nil => intro acc s _; rfl
  | cons a as ih =>
    intro acc s hs
    have hne : s ≠ a := fun h => hs (h ▸ List.mem_cons_self a as)
    have hnotin : s ∉ as := fun h => hs (List.mem_cons_of_mem a h)
    rw [List.foldl_cons, ih (g acc a) s hnotin, hg acc a,
      Function.update_noteq hne]

/-- Generic: folding a step that updates key `s` with `w s` gives every
state of the list the value `w s`, independent of fold position. -/
lemma foldl_step_fst_mem [DecidableEq S] {g : ((S → ℚ) × ℚ) → S → ((S → ℚ) × ℚ)}
    {w : S → ℚ} (hg : ∀ acc s, (g acc s).1 = Function.update acc.1 s (w s)) :
    ∀ (l : List S) (acc : (S → ℚ) × ℚ) (s : S), s ∈ l →
      (l.foldl g acc).1 s = w s := by
  intro l
  induction l with
  | nil => intro _ _ h; cases h
  | cons a as ih =>
    intro acc s hs
    by_cases hmem : s ∈ as
    · rw [List.foldl_cons, ih (g acc a) s hmem]
    · have hsa : s = a := by
        rcases List.mem_cons.mp hs with h1 | h2
        · exact h1
        · exact absurd h2 hmem
      subst hsa
      rw [List.foldl_cons, foldl_step_fst_not_mem hg as (g acc s) s hmem,
        hg acc s, Function.update_same]

/-- Generic: the delta component of such a fold is a fold of the delta
step over the old delta alone. -/
lemma foldl_step_snd {g : ((S → ℚ) × ℚ) → S → ((S → ℚ) × ℚ)}
    {d : ℚ → S → ℚ} (hg : ∀ acc s, (g acc s).2 = d acc.2 s) :
    ∀ (l : List S) (acc : (S → ℚ) × ℚ),
      (l.foldl g acc).2 = l.foldl d acc.2 := by
  intro l
  induction l with
  | nil => intro _; rfl
  | cons a as ih =>
    intro acc
    rw [List.foldl_cons, List.foldl_cons, ih (g acc a), hg acc a]

/-- A fold of `max` that skips the states satisfying `p` is the
max-fold over the mapped filtered list. -/
lemma foldl_skip_max (p : S → Bool) (m : S → ℚ) :
    ∀ (l : List S) (c : ℚ),
      l.foldl (fun c2 s => if p s then c2 else max c2 (m s)) c =
        ((l.filter (fun s => !p s)).map m).foldl max c := by
  intro l
  induction l with
  | nil => intro c; rfl
  | cons a as ih =>
    intro c
    by_cases hp : p a
    · simp [List.foldl_cons, hp, List.filter_cons, ih]
    · simp [List.foldl_cons, hp, List.filter_cons, ih]

/-- The table component of `viStep` is an update with the synchronous
Bellman value `viUpdate` computed from the old table. -/
lemma viStep_fst [DecidableEq S] (env : MDPEnv S A) (gamma : ℚ) (U : S → ℚ)
    (acc : (S → ℚ) × ℚ) (s : S) :
    (viStep env gamma U acc s).1 = Function.update acc.1 s (viUpdate env gamma U s) := by
  unfold viStep viUpdate
  by_cases ht : env.terminal s <;> simp [ht]

/-- The delta accumulation step of a Value Iteration sweep: skip
terminal states, otherwise take the max with the absolute change. -/
def viDeltaStep [DecidableEq S] (env : MDPEnv S A) (gamma : ℚ) (U : S → ℚ)
    (c : ℚ) (s : S) : ℚ :=
  if env.terminal s then c else max c |viUpdate env gamma U s - U s|

/-- The delta component of `viStep` skips terminal states and otherwise
accumulates the absolute change at the state. -/
lemma viStep_snd [DecidableEq S] (env : MDPEnv S A) (gamma : ℚ) (U : S → ℚ)
    (acc : (S → ℚ) × ℚ) (s : S) :
    (viStep env gamma U acc s).2 = viDeltaStep env gamma U acc.2 s := by
  by_cases ht : env.terminal s <;> simp [viStep, viDeltaStep, viUpdate, ht]

/-- A Value Iteration sweep computes, at every state of the model, the
synchronous Bellman backup from the pre-sweep table. -/
lemma viSweep_fst_mem [DecidableEq S] (env : MDPEnv S A) (gamma : ℚ) (U : S → ℚ)
    {s : S} (hs : s ∈ env.states) :
    (viSweep env gamma U).1 s = viUpdate env gamma U s :=
  foldl_step_fst_mem (viStep_fst env gamma U) env.states (U, 0) s hs

/-- A Value Iteration sweep leaves states outside the model unchanged. -/
lemma viSweep_fst_not_mem [DecidableEq S] (env : MDPEnv S A) (gamma : ℚ) (U : S → ℚ)
    {s : S} (hs : s ∉ env.states) :
    (viSweep env gamma U).1 s = U s :=
  foldl_step_fst_not_mem (viStep_fst env gamma U) env.states (U, 0) s hs

/-- The delta the Value Iteration loop actually tracks: the max-fold of
the absolute utility changes over the NON-terminal states only
(solver.py lines 56-59 `continue` past the delta update for terminal
states). -/
def nonterminalDelta [DecidableEq S] (env : MDPEnv S A) (gamma : ℚ) (U : S → ℚ) : ℚ :=
  ((env.states.filter (fun s => !env.terminal s)).map
    (fun s => |viUpdate env gamma U s - U s|)).foldl max 0

/-- Modelled from the spec: the delta described by the specification
sentence for claim C6, the max absolute difference between new and old
utility over ALL states of the model, terminal states included. -/
def allStatesDelta [DecidableEq S] (env : MDPEnv S A) (gamma : ℚ) (U : S → ℚ) : ℚ :=
  (env.states.map (fun s => |viUpdate env gamma U s - U s|)).foldl max 0

/-- The delta returned by a sweep is exactly the non-terminal delta. -/
lemma viSweep_snd_eq [DecidableEq S] (env : MDPEnv S A) (gamma : ℚ) (U : S → ℚ) :
    (viSweep env gamma U).2 = nonterminalDelta env gamma U := by
  unfold viSweep nonterminalDelta
  rw [foldl_step_snd (viStep_snd env gamma U) env.states (U, 0)]
  exact foldl_skip_max env.terminal (fun s => |viUpdate env gamma U s - U s|)
    env.states 0

/-- The per-state value computed by the `_policy_evaluation` sweep body
(solver.py lines 168-189): reward for terminal states, reward for
states whose policy entry is `None`, and the fixed-policy Bellman
update otherwise. -/
def peUpdate (env : MDPEnv S A) (gamma : ℚ) (pol : S → Option A)
    (U : S → ℚ) (s : S) : ℚ :=
  if env.terminal s then env.reward s
  else
    match pol s with
    | none => env.reward s
    | some a => env.reward s + gamma * qValue env U s a

/-- The table component of `peStep` is an update with `peUpdate`. -/
lemma peStep_fst [DecidableEq S] (env : MDPEnv S A) (gamma : ℚ) (pol : S → Option A)
    (U : S → ℚ) (acc : (S → ℚ) × ℚ) (s : S) :
    (peStep env gamma pol U acc s).1 =
      Function.update acc.1 s (peUpdate env gamma pol U s) := by
  by_cases ht : env.terminal s
  · simp [peStep, peUpdate, ht]
  · cases hp : pol s <;> simp [peStep, peUpdate, qValue, ht, hp]

/-- A policy-evaluation sweep computes, at every state of the model,
the fixed-policy backup from the pre-sweep table. -/
lemma peSweep_fst_mem [DecidableEq S] (env : MDPEnv S A) (gamma : ℚ)
    (pol : S → Option A) (U : S → ℚ) {s : S} (hs : s ∈ env.states) :
    (peSweep env gamma pol U).1 s = peUpdate env gamma pol U s :=
  foldl_step_fst_mem (peStep_fst env gamma pol U) env.states (U, 0) s hs

/- ----------------------------------------------------------------
   Part 7: contraction of the sweep operator and termination of the
   Value Iteration loop for 0 ≤ gamma < 1.
   ---------------------------------------------------------------- -/

/-- Sup-distance of two utility tables over a given state list. -/
def supDist (states : List S) (U V : S → ℚ) : ℚ :=
  (states.map (fun s => |U s - V s|)).foldl max 0

/-- The Model contract of §4.1 assumed by the solver: at every
non-terminal state of the model, each legal action carries transition
entries whose probability components are nonnegative and sum to at most
one, and whose successor states belong to the model. -/
def validEnv (env : MDPEnv S A) : Prop :=
  ∀ s ∈ env.states, env.terminal s = false → ∀ a ∈ env.actions s,
    (∀ pr ∈ env.transitions s a, 0 ≤ pr.1 ∧ pr.2 ∈ env.states) ∧
    ((env.transitions s a).map Prod.fst).sum ≤ 1

lemma supDist_nonneg (states : List S) (U V : S → ℚ) : 0 ≤ supDist states U V :=
  le_foldl_max _ 0

lemma abs_sub_le_supDist {states : List S} {s : S} (hs : s ∈ states) (U V : S → ℚ) :
    |U s - V s| ≤ supDist states U V :=
  mem_le_foldl_max (List.mem_map_of_mem (fun s => |U s - V s|) hs) 0

/-- A probability-weighted sum is Lipschitz in the table, with constant
the total weight. -/
lemma weighted_sum_diff_le {U V : S → ℚ} {D : ℚ} :
    ∀ (l : List (ℚ × S)), (∀ pr ∈ l, 0 ≤ pr.1 ∧ |U pr.2 - V pr.2| ≤ D) →
      |(l.map (fun pr => pr.1 * U pr.2)).sum - (l.map (fun pr => pr.1 * V pr.2)).sum| ≤
        D * (l.map Prod.fst).sum := by
  intro l
  induction l with
  | nil => intro _; simp
  | cons pr rest ih =>
    intro h
    have hpr := h pr (List.mem_cons_self pr rest)
    have hrest := ih (fun q hq => h q (List.mem_cons_of_mem pr hq))
    simp only [List.map_cons, List.sum_cons]
    have hsplit : pr.1 * U pr.2 + (rest.map (fun q => q.1 * U q.2)).sum -
        (pr.1 * V pr.2 + (rest.map (fun q => q.1 * V q.2)).sum) =
        pr.1 * (U pr.2 - V pr.2) +
          ((rest.map (fun q => q.1 * U q.2)).sum - (rest.map (fun q => q.1 * V q.2)).sum) := by
      ring
    rw [hsplit]
    calc |pr.1 * (U pr.2 - V pr.2) +
          ((rest.map (fun q => q.1 * U q.2)).sum - (rest.map (fun q => q.1 * V q.2)).sum)|
        ≤ |pr.1 * (U pr.2 - V pr.2)| +
          |(rest.map (fun q => q.1 * U q.2)).sum - (rest.map (fun q => q.1 * V q.2)).sum| :=
          abs_add _ _
      _ ≤ pr.1 * D + D * (rest.map Prod.fst).sum := by
          apply add_le_add
          · rw [abs_mul, abs_of_nonneg hpr.1]
            exact mul_le_mul_of_nonneg_left hpr.2 hpr.1
          · exact hrest
      _ = D * (pr.1 + (rest.map Prod.fst).sum) := by ring

/-- The q-value of an action at a valid state is Lipschitz in the
table with constant at most one:  the contraction core. -/
lemma qValue_diff_le {env : MDPEnv S A} (hval : validEnv env) {s : S}
    (hs : s ∈ env.states) (ht : env.terminal s = false) {a : A}
    (ha : a ∈ env.actions s) (U V : S → ℚ) :
    |qValue env U s a - qValue env V s a| ≤ supDist env.states U V := by
  obtain ⟨hmem, hsum⟩ := hval s hs ht a ha
  rw [qValue_eq_sum, qValue_eq_sum]
  have hD : 0 ≤ supDist env.states U V := supDist_nonneg _ _ _
  calc |((env.transitions s a).map (fun pr => pr.1 * U pr.2)).sum -
        ((env.transitions s a).map (fun pr => pr.1 * V pr.2)).sum|
      ≤ supDist env.states U V * ((env.transitions s a).map Prod.fst).sum := by
        apply weighted_sum_diff_le
        intro pr hpr
        exact ⟨(hmem pr hpr).1, abs_sub_le_supDist (hmem pr hpr).2 U V⟩
    _ ≤ supDist env.states U V * 1 := mul_le_mul_of_nonneg_left hsum hD
    _ = supDist env.states U V := mul_one _

/-- Max-folds over pointwise-close value lists are close. -/
lemma foldl_max_pair_le {f g : A → ℚ} {D : ℚ} :
    ∀ (l : List A) (x y : ℚ), |x - y| ≤ D → (∀ a ∈ l, |f a - g a| ≤ D) →
      |(l.map f).foldl max x - (l.map g).foldl max y| ≤ D := by
  intro l
  induction l with
  | nil => intro x y hxy _; exact hxy
  | cons a rest ih =>
    intro x y hxy h
    simp only [List.map_cons, List.foldl_cons]
    apply ih (max x (f a)) (max y (g a))
    · exact le_trans (abs_max_sub_max_le_max x (f a) y (g a))
        (max_le hxy (h a (List.mem_cons_self a rest)))
    · exact fun b hb => h b (List.mem_cons_of_mem a hb)

/-- `listMax` over pointwise-close value lists is close (with the
`0`-for-empty convention shared by both sides). -/
lemma abs_listMax_sub_le {f g : A → ℚ} {D : ℚ} (hD : 0 ≤ D) (l : List A)
    (h : ∀ a ∈ l, |f a - g a| ≤ D) :
    |listMax (l.map f) - listMax (l.map g)| ≤ D := by
  cases l with
  | nil => simpa using hD
  | cons a rest =>
    simp only [List.map_cons, listMax]
    exact foldl_max_pair_le rest (f a) (g a) (h a (List.mem_cons_self a rest))
      (fun b hb => h b (List.mem_cons_of_mem a hb))

/-- One-state contraction: the Bellman backup moves tables together by
a factor gamma at every state of a valid model. -/
lemma viUpdate_contraction {env : MDPEnv S A} (hval : validEnv env)
    {gamma : ℚ} (hg : 0 ≤ gamma) {s : S} (hs : s ∈ env.states) (U V : S → ℚ) :
    |viUpdate env gamma U s - viUpdate env gamma V s| ≤
      gamma * supDist env.states U V := by
  have hD : 0 ≤ supDist env.states U V := supDist_nonneg _ _ _
  by_cases ht : env.terminal s
  · simp [viUpdate, ht, mul_nonneg hg hD]
  · have htf : env.terminal s = false := by simpa using ht
    simp only [viUpdate, htf, Bool.false_eq_true, if_false, qValuesDict_snd]
    have hsplit : env.reward s + gamma * listMax ((env.actions s).map (qValue env U s)) -
        (env.reward s + gamma * listMax ((env.actions s).map (qValue env V s))) =
        gamma * (listMax ((env.actions s).map (qValue env U s)) -
          listMax ((env.actions s).map (qValue env V s))) := by
      ring
    rw [hsplit, abs_mul, abs_of_nonneg hg]
    apply mul_le_mul_of_nonneg_left _ hg
    exact abs_listMax_sub_le hD (env.actions s)
      (fun a ha => qValue_diff_le hval hs htf ha U V)

/-- Sweep contraction: one synchronous sweep contracts the sup-distance
over the model by gamma. -/
lemma supDist_sweep_le [DecidableEq S] {env : MDPEnv S A} (hval : validEnv env)
    {gamma : ℚ} (hg : 0 ≤ gamma) (U V : S → ℚ) :
    supDist env.states (viSweep env gamma U).1 (viSweep env gamma V).1 ≤
      gamma * supDist env.states U V := by
  have hD : 0 ≤ supDist env.states U V := supDist_nonneg _ _ _
  apply foldl_max_le (mul_nonneg hg hD)
  intro x hx
  rcases List.mem_map.mp hx with ⟨s, hs, rfl⟩
  rw [viSweep_fst_mem env gamma U hs, viSweep_fst_mem env gamma V hs]
  exact viUpdate_contraction hval hg hs U V

/-- Iterating the sweep: `viIter n U` is the table after `n` sweeps
starting from `U`. -/
def viIter [DecidableEq S] (env : MDPEnv S A) (gamma : ℚ) : Nat → (S → ℚ) → (S → ℚ)
  | 0, U => U
  | n + 1, U => viIter env gamma n (viSweep env gamma U).1

/-- The last sweep can be peeled off the back of an iteration. -/
lemma viIter_succ_back [DecidableEq S] (env : MDPEnv S A) (gamma : ℚ) :
    ∀ (n : Nat) (U : S → ℚ),
      viIter env gamma (n + 1) U = (viSweep env gamma (viIter env gamma n U)).1 := by
  intro n
  induction n with
  | zero => intro U; rfl
  | succ m ih =>
    intro U
    calc viIter env gamma (m + 2) U
        = viIter env gamma (m + 1) (viSweep env gamma U).1 := rfl
      _ = (viSweep env gamma (viIter env gamma m (viSweep env gamma U).1)).1 :=
          ih (viSweep env gamma U).1
      _ = (viSweep env gamma (viIter env gamma (m + 1) U)).1 := rfl

/-- Geometric decay of successive sweep distances. -/
lemma supDist_iter_le [DecidableEq S] {env : MDPEnv S A} (hval : validEnv env)
    {gamma : ℚ} (hg : 0 ≤ gamma) (U : S → ℚ) :
    ∀ n : Nat,
      supDist env.states (viIter env gamma (n + 1) U) (viIter env gamma n U) ≤
        gamma ^ n * supDist env.states (viIter env gamma 1 U) (viIter env gamma 0 U) := by
  intro n
  induction n with
  | zero => simp
  | succ m ih =>
    calc supDist env.states (viIter env gamma (m + 2) U) (viIter env gamma (m + 1) U)
        = supDist env.states (viSweep env gamma (viIter env gamma (m + 1) U)).1
            (viSweep env gamma (viIter env gamma m U)).1 := by
          rw [viIter_succ_back env gamma (m + 1) U, viIter_succ_back env gamma m U]
      _ ≤ gamma * supDist env.states (viIter env gamma (m + 1) U) (viIter env gamma m U) :=
          supDist_sweep_le hval hg _ _
      _ ≤ gamma * (gamma ^ m *
            supDist env.states (viIter env gamma 1 U) (viIter env gamma 0 U)) :=
          mul_le_mul_of_nonneg_left ih hg
      _ = gamma ^ (m + 1) *
            supDist env.states (viIter env gamma 1 U) (viIter env gamma 0 U) := by
          ring

/-- The delta tracked by a sweep is bounded by the sup-distance between
the post-sweep and pre-sweep tables over the model. -/
lemma nonterminalDelta_le_supDist [DecidableEq S] (env : MDPEnv S A)
    (gamma : ℚ) (U : S → ℚ) :
    nonterminalDelta env gamma U ≤ supDist env.states (viSweep env gamma U).1 U := by
  apply foldl_max_le (supDist_nonneg _ _ _)
  intro x hx
  rcases List.mem_map.mp hx with ⟨s, hs, rfl⟩
  have hs2 : s ∈ env.states := List.mem_of_mem_filter hs
  have := abs_sub_le_supDist hs2 (viSweep env gamma U).1 U
  rwa [viSweep_fst_mem env gamma U hs2] at this

/-- For 0 ≤ gamma < 1, the tracked sweep delta eventually falls below
any positive epsilon. -/
lemma eventually_delta_lt [DecidableEq S] {env : MDPEnv S A} (hval : validEnv env)
    {gamma eps : ℚ} (hg0 : 0 ≤ gamma) (hg1 : gamma < 1) (heps : 0 < eps) (U : S → ℚ) :
    ∃ n : Nat, (viSweep env gamma (viIter env gamma n U)).2 < eps := by
  set D0 := supDist env.states (viIter env gamma 1 U) (viIter env gamma 0 U) with hD0def
  have hD0 : 0 ≤ D0 := supDist_nonneg _ _ _
  rcases lt_or_eq_of_le hD0 with hpos | hzero
  · obtain ⟨n, hn⟩ := exists_pow_lt_of_lt_one (div_pos heps hpos) hg1
    refine ⟨n, ?_⟩
    have hchain : (viSweep env gamma (viIter env gamma n U)).2 ≤ gamma ^ n * D0 := by
      calc (viSweep env gamma (viIter env gamma n U)).2
          = nonterminalDelta env gamma (viIter env gamma n U) := viSweep_snd_eq _ _ _
        _ ≤ supDist env.states (viSweep env gamma (viIter env gamma n U)).1
              (viIter env gamma n U) := nonterminalDelta_le_supDist _ _ _
        _ = supDist env.states (viIter env gamma (n + 1) U) (viIter env gamma n U) := by
              rw [viIter_succ_back]
        _ ≤ gamma ^ n * D0 := supDist_iter_le hval hg0 U n
    have hlt : gamma ^ n * D0 < eps := by
      have h1 : gamma ^ n * D0 < eps / D0 * D0 := mul_lt_mul_of_pos_right hn hpos
      rwa [div_mul_cancel₀ eps (ne_of_gt hpos)] at h1
    exact lt_of_le_of_lt hchain hlt
  · refine ⟨0, ?_⟩
    calc (viSweep env gamma (viIter env gamma 0 U)).2
        = nonterminalDelta env gamma (viIter env gamma 0 U) := viSweep_snd_eq _ _ _
      _ ≤ supDist env.states (viSweep env gamma (viIter env gamma 0 U)).1
            (viIter env gamma 0 U) := nonterminalDelta_le_supDist _ _ _
      _ = supDist env.states (viIter env gamma 1 U) (viIter env gamma 0 U) := by
            rw [viIter_succ_back]
      _ = 0 := hzero.symm
      _ < eps := heps

/-- If some sweep within the fuel bound would see a delta below
epsilon, the loop with that much fuel stops and returns a table. -/
lemma viLoop_isSome_of_exists [DecidableEq S] (env : MDPEnv S A) (gamma eps : ℚ) :
    ∀ (fuel : Nat) (U : S → ℚ),
      (∃ n : Nat, n < fuel ∧ (viSweep env gamma (viIter env gamma n U)).2 < eps) →
      (viLoop env gamma eps fuel U).isSome = true := by
  intro fuel
  induction fuel with
  | zero =>
    intro U h
    obtain ⟨n, hn, _⟩ := h
    exact absurd hn (Nat.not_lt_zero n)
  | succ m ih =>
    intro U h
    by_cases hstop : (viSweep env gamma U).2 < eps
    · simp [viLoop, hstop]
    · obtain ⟨n, hn, hlt⟩ := h
      cases n with
      | zero => exact absurd hlt hstop
      | succ k =>
        have hrec : (viLoop env gamma eps m (viSweep env gamma U).1).isSome = true := by
          apply ih
          exact ⟨k, Nat.lt_of_succ_lt_succ hn, hlt⟩
        simpa [viLoop, hstop] using hrec

/-- Any table returned by the loop is the result of a final sweep, so
at every terminal state of the model it holds the reward. -/
lemma viLoop_terminal_reward [DecidableEq S] (env : MDPEnv S A) (gamma eps : ℚ) :
    ∀ (fuel : Nat) (U W : S → ℚ), viLoop env gamma eps fuel U = some W →
      ∀ s ∈ env.states, env.terminal s = true → W s = env.reward s := by
  intro fuel
  induction fuel with
  | zero => intro U W h; cases h
  | succ m ih =>
    intro U W h s hs ht
    by_cases hstop : (viSweep env gamma U).2 < eps
    · have hW : (viSweep env gamma U).1 = W := by
        simpa [viLoop, hstop] using h
      rw [← hW, viSweep_fst_mem env gamma U hs, viUpdate, ht]
      simp
    · have hrec : viLoop env gamma eps m (viSweep env gamma U).1 = some W := by
        simpa [viLoop, hstop] using h
      exact ih (viSweep env gamma U).1 W hrec s hs ht

/- ----------------------------------------------------------------
   Part 8: structural properties of the Gridworld transition
   consolidation (environment.py lines 98-105).
   ---------------------------------------------------------------- -/

/-- Inserting into the consolidation dict either keeps the key list
(existing key) or appends the new key. -/
lemma addConsolidated_fst : ∀ (l : List ((ℤ × ℤ) × ℚ)) (k : ℤ × ℤ) (p : ℚ),
    (addConsolidated l k p).map Prod.fst =
      if k ∈ l.map Prod.fst then l.map Prod.fst else l.map Prod.fst ++ [k] := by
  intro l
  induction l with
  | nil => intro k p; simp [addConsolidated]
  | cons e rest ih =>
    intro k p
    by_cases hek : e.1 = k
    · simp [addConsolidated, hek]
    · have hke : ¬(k = e.1) := fun h => hek h.symm
      simp only [addConsolidated, if_neg hek, List.map_cons, ih k p, List.mem_cons]
      by_cases hk : k ∈ rest.map Prod.fst
      · simp [hk, hke]
      · simp [hk, hke]

/-- The consolidation dict keeps its keys duplicate-free. -/
lemma addConsolidated_fst_nodup {l : List ((ℤ × ℤ) × ℚ)}
    (h : (l.map Prod.fst).Nodup) (k : ℤ × ℤ) (p : ℚ) :
    ((addConsolidated l k p).map Prod.fst).Nodup := by
  rw [addConsolidated_fst]
  by_cases hk : k ∈ l.map Prod.fst
  · simpa [hk] using h
  · simp only [if_neg hk]
    rw [List.nodup_append]
    refine ⟨h, List.nodup_singleton k, ?_⟩
    intro x hx hxk
    rw [List.mem_singleton] at hxk
    subst hxk
    exact hk hx

/-- Inserting into the consolidation dict adds the probability to the
total. -/
lemma addConsolidated_snd_sum : ∀ (l : List ((ℤ × ℤ) × ℚ)) (k : ℤ × ℤ) (p : ℚ),
    ((addConsolidated l k p).map Prod.snd).sum = (l.map Prod.snd).sum + p := by
  intro l
  induction l with
  | nil => intro k p; simp [addConsolidated]
  | cons e rest ih =>
    intro k p
    by_cases hek : e.1 = k
    · simp only [addConsolidated, if_pos hek, List.map_cons, List.sum_cons]
      ring
    · simp only [addConsolidated, if_neg hek, List.map_cons, List.sum_cons, ih k p]
      ring

/-- The consolidated transition list never repeats a successor state. -/
lemma consolidate_fst_nodup (t : List (ℚ × (ℤ × ℤ))) :
    ((consolidate t).map Prod.fst).Nodup := by
  have general : ∀ (u : List (ℚ × (ℤ × ℤ))) (acc : List ((ℤ × ℤ) × ℚ)),
      (acc.map Prod.fst).Nodup →
      (((u.foldl (fun acc2 pr => addConsolidated acc2 pr.2 pr.1) acc)).map Prod.fst).Nodup := by
    intro u
    induction u with
    | nil => intro acc h; exact h
    | cons pr rest ih =>
      intro acc h
      exact ih (addConsolidated acc pr.2 pr.1) (addConsolidated_fst_nodup h pr.2 pr.1)
  exact general t [] (by simp)

/-- Consolidation preserves the total probability mass. -/
lemma consolidate_snd_sum (t : List (ℚ × (ℤ × ℤ))) :
    ((consolidate t).map Prod.snd).sum = (t.map Prod.fst).sum := by
  have general : ∀ (u : List (ℚ × (ℤ × ℤ))) (acc : List ((ℤ × ℤ) × ℚ)),
      (((u.foldl (fun acc2 pr => addConsolidated acc2 pr.2 pr.1) acc)).map Prod.snd).sum =
        (acc.map Prod.snd).sum + (u.map Prod.fst).sum := by
    intro u
    induction u with
    | nil => intro acc; simp
    | cons pr rest ih =>
      intro acc
      simp only [List.foldl_cons, List.map_cons, List.sum_cons,
        ih (addConsolidated acc pr.2 pr.1), addConsolidated_snd_sum]
      ring
  simpa using general t []

/-- For a non-terminal state, `_calculate_next_state` succeeds whenever
the action name is a key of `ACTIONS`. -/
lemma calculateNextState_isSome (s : ℤ × ℤ) (a : String)
    (ha : (List.lookup a ACTIONS).isSome = true) :
    ∃ n, calculateNextState s a = some n := by
  unfold calculateNextState
  by_cases hs : s ∈ terminalStates
  · exact ⟨s, by rw [if_pos hs]⟩
  · rw [if_neg hs]
    obtain ⟨d, hd⟩ := Option.isSome_iff_exists.mp ha
    rw [hd]
    exact ⟨_, rfl⟩

/-- For a non-terminal state and slip data, `get_transitions` returns
the consolidation of the three stochastic outcomes. -/
lemma gridGetTransitions_eq (s : ℤ × ℤ) (hs : s ∉ terminalStates)
    (a la ra : String) (hsl : actionSlips a = some (la, ra))
    (n1 n2 n3 : ℤ × ℤ) (h1 : calculateNextState s a = some n1)
    (h2 : calculateNextState s la = some n2)
    (h3 : calculateNextState s ra = some n3) :
    gridGetTransitions s a = some (consolidate
      [(PROB_INTEND, n1), (PROB_SLIP_LEFT, n2), (PROB_SLIP_RIGHT, n3)]) := by
  unfold gridGetTransitions
  rw [if_neg hs]
  simp [hsl, h1, h2, h3]

/-- For every non-terminal state and legal action, `get_transitions`
returns the consolidated list of the intended and the two slip
outcomes. -/
lemma gridGetTransitions_shape (s : ℤ × ℤ) (hs : s ∉ terminalStates)
    {a : String} (ha : a ∈ gridGetActions s) :
    ∃ n1 n2 n3, gridGetTransitions s a = some (consolidate
      [(PROB_INTEND, n1), (PROB_SLIP_LEFT, n2), (PROB_SLIP_RIGHT, n3)]) := by
  have ha2 : a ∈ ACTIONS.map Prod.fst := by
    rw [gridGetActions, if_neg hs] at ha
    exact ha
  have ha3 : a = "North" ∨ a = "South" ∨ a = "East" ∨ a = "West" := by
    simpa [ACTIONS] using ha2
  rcases ha3 with rfl | rfl | rfl | rfl
  · obtain ⟨n1, h1⟩ := calculateNextState_isSome s "North" rfl
    obtain ⟨n2, h2⟩ := calculateNextState_isSome s "West" rfl
    obtain ⟨n3, h3⟩ := calculateNextState_isSome s "East" rfl
    exact ⟨n1, n2, n3,
      gridGetTransitions_eq s hs "North" "West" "East" rfl n1 n2 n3 h1 h2 h3⟩
  · obtain ⟨n1, h1⟩ := calculateNextState_isSome s "South" rfl
    obtain ⟨n2, h2⟩ := calculateNextState_isSome s "East" rfl
    obtain ⟨n3, h3⟩ := calculateNextState_isSome s "West" rfl
    exact ⟨n1, n2, n3,
      gridGetTransitions_eq s hs "South" "East" "West" rfl n1 n2 n3 h1 h2 h3⟩
  · obtain ⟨n1, h1⟩ := calculateNextState_isSome s "East" rfl
    obtain ⟨n2, h2⟩ := calculateNextState_isSome s "North" rfl
    obtain ⟨n3, h3⟩ := calculateNextState_isSome s "South" rfl
    exact ⟨n1, n2, n3,
      gridGetTransitions_eq s hs "East" "North" "South" rfl n1 n2 n3 h1 h2 h3⟩
  · obtain ⟨n1, h1⟩ := calculateNextState_isSome s "West" rfl
    obtain ⟨n2, h2⟩ := calculateNextState_isSome s "South" rfl
    obtain ⟨n3, h3⟩ := calculateNextState_isSome s "North" rfl
    exact ⟨n1, n2, n3,
      gridGetTransitions_eq s hs "West" "South" "North" rfl n1 n2 n3 h1 h2 h3⟩

/- ----------------------------------------------------------------
   Part 9: facts about the small concrete models.
   ---------------------------------------------------------------- -/

/-- The two-state chain satisfies the Model contract. -/
lemma tinyEnv_valid : validEnv tinyEnv := by
  intro s hs hterm a _
  have hs0 : s = 0 := by
    have : s = 0 ∨ s = 1 := by simpa [tinyEnv] using hs
    rcases this with h | h
    · exact h
    · subst h
      simp [tinyEnv] at hterm
  subst hs0
  constructor
  · intro pr hpr
    have : pr = ((1 : ℚ), (1 : Nat)) := by simpa [tinyEnv] using hpr
    subst this
    exact ⟨zero_le_one, by simp [tinyEnv]⟩
  · simp [tinyEnv]

/-- The first sweep of the chain from the zero table tracks delta 0:
only the non-terminal state 0 contributes, and its value stays 0. -/
lemma tinyEnv_sweep_delta : (viSweep tinyEnv 1 (fun _ => 0)).2 = 0 := by
  rw [viSweep_snd_eq]
  simp [nonterminalDelta, tinyEnv, viUpdate, qValuesDict, qValue, listMax]

/-- The delta of the spec sentence over all states of the chain is 5:
the terminal state jumps from 0 to its reward 5 in the first sweep. -/
lemma tinyEnv_allStatesDelta : allStatesDelta tinyEnv 1 (fun _ => 0) = 5 := by
  simp [allStatesDelta, tinyEnv, viUpdate, qValuesDict, qValue, listMax]

/- ----------------------------------------------------------------
   Part 10: the claims.
   ---------------------------------------------------------------- -/

/-- Claim C1: in every Value Iteration sweep, the new utility of every
non-terminal state equals reward(state) plus gamma times the maximum
over legal actions of the action-value, where each action-value is the
probability-weighted sum over transitions(state, action) of the
successor utility read exclusively from the previous sweep's table (no
reward term inside the action-value, and no partially updated value is
read during the sweep); terminal states get reward(state) directly. -/
theorem vi_sweep_is_synchronous_bellman (S A : Type) [DecidableEq S]
    (env : MDPEnv S A) (gamma : ℚ) (U : S → ℚ) (s : S) (hs : s ∈ env.states) :
    (env.terminal s = true → (viSweep env gamma U).1 s = env.reward s) ∧
    (env.terminal s = false → (viSweep env gamma U).1 s =
      env.reward s + gamma * listMax ((env.actions s).map (fun a =>
        ((env.transitions s a).map (fun pr => pr.1 * U pr.2)).sum))) := by
  constructor
  · intro ht
    rw [viSweep_fst_mem env gamma U hs, viUpdate, ht]
    simp
  · intro ht
    rw [viSweep_fst_mem env gamma U hs]
    simp only [viUpdate, ht, Bool.false_eq_true, if_false, qValuesDict_snd]
    have hmap : (env.actions s).map (qValue env U s) =
        (env.actions s).map (fun a =>
          ((env.transitions s a).map (fun pr => pr.1 * U pr.2)).sum) :=
      List.map_congr_left (fun a _ => qValue_eq_sum env U s a)
    rw [hmap]

/-- Witness for C1 at the two-state chain, state 0. -/
theorem vi_sweep_is_synchronous_bellman_witness :
    (tinyEnv.terminal 0 = true → (viSweep tinyEnv 1 (fun _ => 0)).1 0 = tinyEnv.reward 0) ∧
    (tinyEnv.terminal 0 = false → (viSweep tinyEnv 1 (fun _ => 0)).1 0 =
      tinyEnv.reward 0 + 1 * listMax ((tinyEnv.actions 0).map (fun a =>
        ((tinyEnv.transitions 0 a).map (fun pr => pr.1 * (fun _ => (0 : ℚ)) pr.2)).sum))) :=
  vi_sweep_is_synchronous_bellman Nat Nat tinyEnv 1 (fun _ => 0) 0 (by decide)

/-- Claim C2: for every non-terminal state and legal action, the list
returned by get_transitions contains no successor state more than once
(duplicate destinations are consolidated by summing), and the
probabilities in the returned list sum to 1.0 within 1e-9 (here:
exactly 1). -/
theorem transitions_consolidated_and_normalized (s : ℤ × ℤ) (a : String)
    (hterm : gridTerminal s = false) (ha : a ∈ gridGetActions s) :
    ∃ tl, gridGetTransitions s a = some tl ∧ (tl.map Prod.fst).Nodup ∧
      |(tl.map Prod.snd).sum - 1| ≤ 1 / 1000000000 := by
  have hs : s ∉ terminalStates := of_decide_eq_false hterm
  obtain ⟨n1, n2, n3, heq⟩ := gridGetTransitions_shape s hs ha
  refine ⟨_, heq, consolidate_fst_nodup _, ?_⟩
  rw [consolidate_snd_sum]
  norm_num [PROB_INTEND, PROB_SLIP_LEFT, PROB_SLIP_RIGHT]

/-- Witness for C2 at state (2,0), action North. -/
theorem transitions_consolidated_and_normalized_witness :
    ∃ tl, gridGetTransitions (2, 0) "North" = some tl ∧ (tl.map Prod.fst).Nodup ∧
      |(tl.map Prod.snd).sum - 1| ≤ 1 / 1000000000 :=
  transitions_consolidated_and_normalized (2, 0) "North" rfl (by decide)

/-- Claim C3: for every gamma in [0,1) and every positive epsilon, the
Value Iteration loop of a model honoring the Model contract terminates:
some finite fuel suffices for the tracked sweep delta to fall below
epsilon and the loop to return. -/
theorem vi_terminates (S A : Type) [DecidableEq S] (env : MDPEnv S A)
    (gamma eps : ℚ) (hval : validEnv env) (hg0 : 0 ≤ gamma) (hg1 : gamma < 1)
    (heps : 0 < eps) :
    ∃ fuel : Nat, (solveValueIteration env gamma eps fuel).isSome = true := by
  obtain ⟨n, hn⟩ := eventually_delta_lt hval hg0 hg1 heps (fun _ => 0)
  refine ⟨n + 1, ?_⟩
  have h := viLoop_isSome_of_exists env gamma eps (n + 1) (fun _ => 0)
    ⟨n, Nat.lt_succ_self n, hn⟩
  simpa [solveValueIteration, Option.isSome_map'] using h

/-- Witness for C3 at the two-state chain with gamma 1/2, epsilon 1/100. -/
theorem vi_terminates_witness :
    ∃ fuel : Nat, (solveValueIteration tinyEnv (1/2) (1/100) fuel).isSome = true :=
  vi_terminates Nat Nat tinyEnv (1/2) (1/100) tinyEnv_valid (by norm_num)
    (by norm_num) (by norm_num)

/-- Claim C4: terminal absorption.  For every terminal Gridworld state,
get_actions is empty and get_transitions is empty for any action; and
for any model, any utility table returned by the Value Iteration loop
maps every terminal state of the model exactly to its reward. -/
theorem terminal_absorption :
    (∀ s : ℤ × ℤ, gridTerminal s = true →
      gridGetActions s = [] ∧ ∀ a : String, gridGetTransitions s a = some []) ∧
    (∀ (S A : Type) [DecidableEq S] (env : MDPEnv S A) (gamma eps : ℚ)
      (fuel : Nat) (W : S → ℚ) (P : S → Option A),
      solveValueIteration env gamma eps fuel = some (W, P) →
      ∀ s ∈ env.states, env.terminal s = true → W s = env.reward s) := by
  constructor
  · intro s ht
    have hmem : s ∈ terminalStates := of_decide_eq_true ht
    constructor
    · rw [gridGetActions, if_pos hmem]
    · intro a
      rw [gridGetTransitions, if_pos hmem]
  · intro S A _ env gamma eps fuel W P h s hs ht
    rw [solveValueIteration] at h
    rcases Option.map_eq_some'.mp h with ⟨U, hU, hpair⟩
    have hWU : U = W := ((Prod.mk.injEq _ _ _ _).mp hpair).1
    subst hWU
    exact viLoop_terminal_reward env gamma eps fuel (fun _ => 0) U hU s hs ht

/-- Witness for C4: terminal facts at the goal cell, and the returned
table of a converged run on the two-state chain holding reward 5 at the
terminal state 1. -/
theorem terminal_absorption_witness :
    (gridGetActions GOAL_STATE = [] ∧ gridGetTransitions GOAL_STATE "Jump" = some []) ∧
    (solveValueIteration tinyEnv 1 1 1).map (fun r => r.1 1) = some (tinyEnv.reward 1) := by
  constructor
  · exact ⟨(terminal_absorption.1 GOAL_STATE rfl).1,
      (terminal_absorption.1 GOAL_STATE rfl).2 "Jump"⟩
  · have hsome : viLoop tinyEnv 1 1 1 (fun _ => 0) =
        some (viSweep tinyEnv 1 (fun _ => 0)).1 := by
      rw [viLoop, tinyEnv_sweep_delta]
      norm_num
    have hsolve : solveValueIteration tinyEnv 1 1 1 =
        some ((viSweep tinyEnv 1 (fun _ => 0)).1,
          extractPolicy tinyEnv (viSweep tinyEnv 1 (fun _ => 0)).1) := by
      rw [solveValueIteration, hsome, Option.map_some']
    rw [hsolve, Option.map_some']
    have hW := terminal_absorption.2 Nat Nat tinyEnv 1 1 1
      (viSweep tinyEnv 1 (fun _ => 0)).1
      (extractPolicy tinyEnv (viSweep tinyEnv 1 (fun _ => 0)).1) hsolve 1 (by decide) rfl
    rw [hW]

/-- Counterexample to claim C5 as stated: constructing the solver with
gamma = 2, which is outside [0,1), is not rejected — `__init__` returns
a normally constructed solver storing gamma = 2. -/
theorem gamma_not_rejected_counterexample :
    ((2 : ℚ) < 0 ∨ 1 ≤ (2 : ℚ)) ∧
    mdpSolverInit tinyEnv 2 (1/1000) = Except.ok
      { env := tinyEnv, gamma := 2, epsilon := 1/1000, utilities := fun _ => 0 } :=
  ⟨Or.inr (by norm_num), rfl⟩

/-- Claim C5 (amended): construction performs no validation of gamma at
all — for every environment, gamma and epsilon (in particular gamma
outside [0,1)), `__init__` succeeds and stores the parameters as given
with a zero utility table, rather than rejecting them. -/
theorem solver_construction_never_rejects (S A : Type) (env : MDPEnv S A)
    (gamma eps : ℚ) :
    mdpSolverInit env gamma eps = Except.ok
      { env := env, gamma := gamma, epsilon := eps, utilities := fun _ => 0 } := rfl

/-- Counterexample to claim C6 as stated: on the two-state chain, the
delta tracked by the first sweep (0, since only non-terminal states
contribute) differs from the maximum absolute utility change over all
states including terminal ones (5, from the terminal state jumping to
its reward). -/
theorem delta_ignores_terminal_counterexample :
    (viSweep tinyEnv 1 (fun _ => 0)).2 ≠ allStatesDelta tinyEnv 1 (fun _ => 0) := by
  rw [viSweep_snd_eq, tinyEnv_allStatesDelta]
  have h0 : nonterminalDelta tinyEnv 1 (fun _ => 0) = 0 := by
    rw [← viSweep_snd_eq]
    exact tinyEnv_sweep_delta
  rw [h0]
  norm_num

/-- Claim C6 (amended): in every Value Iteration sweep the tracked
delta equals the maximum absolute difference between the new and the
old utility taken over the NON-terminal states of the model only; the
`continue` for terminal states skips their delta update. -/
theorem delta_is_nonterminal_max (S A : Type) [DecidableEq S] (env : MDPEnv S A)
    (gamma : ℚ) (U : S → ℚ) :
    (viSweep env gamma U).2 = nonterminalDelta env gamma U :=
  viSweep_snd_eq env gamma U

/-- Claim C7: for every non-terminal state and every action that is not
in get_actions(state), get_transitions raises (the `_action_slips`
KeyError, modelled as `none`) rather than silently returning a result. -/
theorem invalid_action_fails_loudly (s : ℤ × ℤ) (a : String)
    (hterm : gridTerminal s = false) (ha : a ∉ gridGetActions s) :
    gridGetTransitions s a = none := by
  have hs : s ∉ terminalStates := of_decide_eq_false hterm
  have ha2 : a ∉ ACTIONS.map Prod.fst := by
    rw [gridGetActions, if_neg hs] at ha
    exact ha
  have h4 : ¬(a = "North") ∧ ¬(a = "South") ∧ ¬(a = "East") ∧ ¬(a = "West") := by
    simpa [ACTIONS] using ha2
  rw [gridGetTransitions, if_neg hs]
  rw [actionSlips, if_neg h4.1, if_neg h4.2.1, if_neg h4.2.2.1, if_neg h4.2.2.2]
  rfl

/-- Witness for C7 at state (2,0) with the unknown action "Jump". -/
theorem invalid_action_fails_loudly_witness :
    gridGetTransitions (2, 0) "Jump" = none :=
  invalid_action_fails_loudly (2, 0) "Jump" rfl (by decide)

/-- Claim C8: a non-terminal state with no legal actions is a defined
case for both solvers: the Value Iteration sweep and the policy
evaluation sweep give it reward(state) alone, and the extracted policy
maps it to the null marker. -/
theorem stuck_state_defined (S A : Type) [DecidableEq S] (env : MDPEnv S A)
    (gamma : ℚ) (pol : S → Option A) (U : S → ℚ) (s : S) (hs : s ∈ env.states)
    (hterm : env.terminal s = false) (hact : env.actions s = [])
    (hpol : pol s = none) :
    (viSweep env gamma U).1 s = env.reward s ∧
    (peSweep env gamma pol U).1 s = env.reward s ∧
    extractPolicy env U s = none := by
  refine ⟨?_, ?_, ?_⟩
  · rw [viSweep_fst_mem env gamma U hs]
    simp [viUpdate, hterm, qValuesDict, hact, listMax]
  · rw [peSweep_fst_mem env gamma pol U hs]
    simp [peUpdate, hterm, hpol]
  · simp [extractPolicy, hterm, argmaxAction, hact]

/-- Witness for C8 at the one-state stuck model. -/
theorem stuck_state_defined_witness :
    (viSweep stuckEnv (1/2) (fun _ => 0)).1 0 = stuckEnv.reward 0 ∧
    (peSweep stuckEnv (1/2) (fun _ => none) (fun _ => 0)).1 0 = stuckEnv.reward 0 ∧
    extractPolicy stuckEnv (fun _ => 0) 0 = none :=
  stuck_state_defined Nat Nat stuckEnv (1/2) (fun _ => none) (fun _ => 0) 0
    (by decide) rfl rfl rfl

/-- Claim C9: in the grid renderers, the comparison of a state tuple
against the set of terminal states with Python `==` is false for every
cell, so the goal/trap label branch of `print_policy_grid` and the
terminal-specific utility branch of `print_utilities_grid` are never
taken. -/
theorem renderer_terminal_branch_dead (r c : ℤ)
    (policy : List ((ℤ × ℤ) × Option String))
    (utilities : List ((ℤ × ℤ) × ℚ)) :
    pyEq (PyVal.tupV r c) (PyVal.setV terminalStates) = false ∧
    printPolicyCell policy r c ≠ PolicyCell.goalLabel ∧
    printPolicyCell policy r c ≠ PolicyCell.trapLabel ∧
    ∀ u : ℚ, printUtilCell utilities r c ≠ UtilCell.terminalFmt u := by
  have hpy : pyEq (PyVal.tupV r c) (PyVal.setV terminalStates) = false := rfl
  refine ⟨hpy, ?_, ?_, ?_⟩
  · simp only [printPolicyCell, hpy, Bool.false_eq_true, if_false]
    by_cases hw : ((r, c) : ℤ × ℤ) ∈ WALL_STATES
    · simp [hw]
    · simp only [if_neg hw]
      cases List.lookup ((r, c) : ℤ × ℤ) policy <;> simp
  · simp only [printPolicyCell, hpy, Bool.false_eq_true, if_false]
    by_cases hw : ((r, c) : ℤ × ℤ) ∈ WALL_STATES
    · simp [hw]
    · simp only [if_neg hw]
      cases List.lookup ((r, c) : ℤ × ℤ) policy <;> simp
  · intro u
    simp only [printUtilCell, hpy, Bool.false_eq_true, if_false]
    by_cases hw : ((r, c) : ℤ × ℤ) ∈ WALL_STATES
    · simp [hw]
    · simp only [if_neg hw]
      cases List.lookup ((r, c) : ℤ × ℤ) utilities <;> simp

/-- Claim C10, the divergence made explicit: at the non-terminal state
(2,0) with action "North", `get_transitions` returns
`consolidated.items()` pairs whose FIRST component is the successor
state and whose SECOND component is the probability — the opposite of
the (probability, next_state) orientation that its own docstring
declares and that the solver's `for prob, next_state in ...` unpacking
assumes, so the solver would index its state-keyed utility table with
the float 0.8 and raise a KeyError. -/
theorem transitions_orientation_swapped :
    gridGetTransitions (2, 0) "North" =
      some [((1, 0), PROB_INTEND), ((2, 0), PROB_SLIP_LEFT), ((2, 1), PROB_SLIP_RIGHT)] ∧
    ((1, 0) : ℤ × ℤ) ∈ gridStates ∧ ((2, 0) : ℤ × ℤ) ∈ gridStates ∧
    ((2, 1) : ℤ × ℤ) ∈ gridStates :=
  ⟨rfl, by decide, by decide, by decide⟩
